import Mathlib

/-!
Verification of the notebooks repository: a shallow embedding of the code of
the softmax-regression-from-scratch notebook and the single-shot-detector
(SSD) notebook, together with theorems settling the spec's claims about them.

Matrices and batched tensors are embedded as (nested) lists; real-valued
library arithmetic is embedded over the real numbers where the claim needs
analytic facts (exp, sqrt) and over the rationals elsewhere, so that concrete
instances evaluate.  Shape-level semantics of the neural-network layer
library (convolution, pooling, batch norm) is embedded as functions from
shape lists to optional shape lists, returning none exactly where the library
rejects the input.
-/

namespace SoftmaxScratch

/-- Embedding of the notebook's softmax: exponentiate every entry, then
divide each row by that row's sum of exponentials (the broadcasted division
by the keepdims row sums). -/
noncomputable def softmax (X : List (List ℝ)) : List (List ℝ) :=
  X.map (fun row =>
    let row_exp := row.map Real.exp
    let part := row_exp.sum
    row_exp.map (fun v => v / part))

/-- Embedding of the argmax over one row of scores, as the library computes
it along axis 1: the index of the first occurrence of the row's maximum. -/
def rowArgmax (row : List ℚ) : ℕ := row.indexOf (row.foldr max (row.headD 0))

/-- Embedding of the notebook's accuracy: compare the per-row argmax vector
with the label vector elementwise and take the mean of the resulting 0/1
indicator vector. -/
def accuracy (y_hat : List (List ℚ)) (y : List ℚ) : ℚ :=
  let A := y_hat.map (fun r => (rowArgmax r : ℚ))
  let eqv := (A.zip y).map (fun p => if p.1 = p.2 then (1 : ℚ) else 0)
  eqv.sum / (eqv.length : ℚ)

/-- The fraction, among the row indices, of rows whose argmax index equals
the corresponding label, written independently of the accuracy code. -/
def matchFraction (y_hat : List (List ℚ)) (y : List ℚ) : ℚ :=
  (((List.range y_hat.length).filter
      (fun i => decide ((rowArgmax (y_hat.getD i []) : ℚ) = y.getD i 0))).length : ℚ)
    / (y_hat.length : ℚ)

end SoftmaxScratch

namespace SSD

/-- The layer kinds the SSD notebook instantiates from the layer library:
3x3 convolutions (with output-channel count, kernel size, padding, stride 1),
batch normalization with a declared channel count, ReLU activation, max
pooling with square kernel whose stride defaults to the kernel, and global
max pooling. -/
inductive Layer where
  | conv (cout k p : ℕ)
  | bn (c : ℕ)
  | relu
  | pool (k : ℕ)
  | gpool

/-- Output size of one spatial dimension of a stride-1 convolution with
kernel k and padding p; the library rejects inputs smaller than the
effective kernel. -/
def convDim (d k p : ℕ) : Option ℕ :=
  if k ≤ d + 2 * p then some (d + 2 * p - k + 1) else none

/-- Shape semantics of one layer on an (N, C, H, W) shape; none models the
library raising on an invalid input. -/
def layerShape : Layer → List ℕ → Option (List ℕ)
  | .conv cout k p, [n, _, h, w] => do
      let h2 ← convDim h k p
      let w2 ← convDim w k p
      pure [n, cout, h2, w2]
  | .bn c, [n, c2, h, w] => if c2 = c then some [n, c2, h, w] else none
  | .relu, [n, c, h, w] => some [n, c, h, w]
  | .pool k, [n, c, h, w] =>
      if k ≤ h ∧ k ≤ w then some [n, c, (h - k) / k + 1, (w - k) / k + 1]
      else none
  | .gpool, [n, c, _, _] => some [n, c, 1, 1]
  | _, _ => none

/-- Shape semantics of a sequential block: thread the shape through the
layers in order. -/
def seqShape (ls : List Layer) (s : List ℕ) : Option (List ℕ) :=
  ls.foldlM (fun acc l => layerShape l acc) s

/-- Embedding of cls_predictor: a 3x3, padding-1 convolution with
num_anchors * (num_classes + 1) output channels. -/
def cls_predictor (num_anchors num_classes : ℕ) : Layer :=
  Layer.conv (num_anchors * (num_classes + 1)) 3 1

/-- Embedding of bbox_predictor: a 3x3, padding-1 convolution with
num_anchors * 4 output channels. -/
def bbox_predictor (num_anchors : ℕ) : Layer :=
  Layer.conv (num_anchors * 4) 3 1

/-- Embedding of down_sample_blk: twice (conv, batch norm, relu), then a
2x2 max pool with stride 2. -/
def down_sample_blk (num_channels : ℕ) : List Layer :=
  ((List.range 2).flatMap fun _ =>
    [Layer.conv num_channels 3 1, Layer.bn num_channels, Layer.relu])
  ++ [Layer.pool 2]

/-- Embedding of base_net: three downsample blocks with 16, 32 and 64
filters in series. -/
def base_net : List Layer :=
  [16, 32, 64].flatMap (fun num_filters => down_sample_blk num_filters)

/-- Embedding of get_blk: block 0 is the base network, block 4 is global
max pooling, blocks 1 to 3 are 128-channel downsample blocks. -/
def get_blk (i : ℕ) : List Layer :=
  if i = 0 then base_net
  else if i = 4 then [Layer.gpool]
  else down_sample_blk 128

/-- The fixed anchor-box size schedule of the notebook, one pair of sizes
per scale. -/
def sizes : List (List ℚ) :=
  [[0.2, 0.272], [0.37, 0.447], [0.54, 0.619], [0.71, 0.79], [0.88, 0.961]]

/-- The fixed aspect-ratio schedule: the same three ratios at all five
scales. -/
def ratios : List (List ℚ) := List.replicate 5 [1, 2, 0.5]

/-- Embedding of num_anchors = len(sizes[0]) + len(ratios[0]) - 1. -/
def num_anchors : ℕ := (sizes.getD 0 []).length + (ratios.getD 0 []).length - 1

/-- Shape of the MultiBoxPrior library call on an (N, C, H, W) feature map:
(1, H * W * (len(sizes) + len(ratios) - 1), 4). -/
def multiBoxPriorShape (sz rt : List ℚ) : List ℕ → Option (List ℕ)
  | [_, _, h, w] => some [1, h * w * (sz.length + rt.length - 1), 4]
  | _ => none

/-- Shape of flatten_pred: move the channel axis last and flatten each
example, so (N, C, H, W) becomes (N, H * W * C). -/
def flatten_predShape : List ℕ → Option (List ℕ)
  | [n, c, h, w] => some [n, h * w * c]
  | _ => none

/-- Shape of the library concat along dimension 1: all arrays must agree on
every other dimension; the result sums dimension 1. -/
def concatDim1Shape (shapes : List (List ℕ)) : Option (List ℕ) :=
  match shapes with
  | [] => none
  | s :: rest =>
      if ∀ t ∈ rest, t.length = s.length ∧ t.eraseIdx 1 = s.eraseIdx 1 then
        some (s.set 1 ((shapes.map (fun t => t.getD 1 0)).sum))
      else none

/-- Shape of concat_preds: flatten every per-scale prediction and
concatenate along dimension 1. -/
def concat_predsShape (shapes : List (List ℕ)) : Option (List ℕ) := do
  let fs ← shapes.mapM flatten_predShape
  concatDim1Shape fs

/-- Shape of reshape((0, -1, k)): keep the batch dimension, set the last
dimension to k, and infer the middle one; the library requires exact
divisibility. -/
def reshapeTo3Shape (k : ℕ) : List ℕ → Option (List ℕ)
  | [n, m] => if 0 < k ∧ k ∣ m then some [n, m / k, k] else none
  | _ => none

/-- Shape semantics of blk_forward: run the block, then generate anchors
with MultiBoxPrior and class/bbox predictions with the two conv heads. -/
def blk_forwardShape (s : List ℕ) (blk : List Layer) (sz rt : List ℚ)
    (clsL bboxL : Layer) :
    Option (List ℕ × List ℕ × List ℕ × List ℕ) := do
  let y ← seqShape blk s
  let a ← multiBoxPriorShape sz rt y
  let c ← layerShape clsL y
  let b ← layerShape bboxL y
  pure (y, a, c, b)

/-- One iteration of the forward loop of TinySSD at scale i: feed the
running feature shape into block i and record the per-scale anchor, class
and bbox shapes. -/
def tinySSDStep (q : ℕ)
    (st : List ℕ × List (List ℕ) × List (List ℕ) × List (List ℕ)) (i : ℕ) :
    Option (List ℕ × List (List ℕ) × List (List ℕ) × List (List ℕ)) := do
  let (y, a, c, b) ← blk_forwardShape st.1 (get_blk i) (sizes.getD i [])
      (ratios.getD i []) (cls_predictor num_anchors q)
      (bbox_predictor num_anchors)
  pure (y, st.2.1 ++ [a], st.2.2.1 ++ [c], st.2.2.2 ++ [b])

/-- Shape semantics of TinySSD.forward with num_classes q: thread the input
through the five blocks, collect per-scale anchors and predictions, then
concatenate the anchors on dimension 1, concatenate and reshape the class
predictions to (batch, -1, q + 1), and concatenate the bbox predictions. -/
def tinySSDForwardShape (q : ℕ) (X : List ℕ) :
    Option (List ℕ × List ℕ × List ℕ) := do
  let st ← (List.range 5).foldlM (tinySSDStep q) (X, [], [], [])
  let anchors ← concatDim1Shape st.2.1
  let clsFlat ← concat_predsShape st.2.2.1
  let clsOut ← reshapeTo3Shape (q + 1) clsFlat
  let bboxOut ← concat_predsShape st.2.2.2
  pure (anchors, clsOut, bboxOut)

/-- A library ndarray: a shape and the row-major flat data. -/
structure NDArray where
  shape : List ℕ
  data : List ℚ

def wf (a : NDArray) : Prop := a.data.length = a.shape.prod

def transpose0231 (a : NDArray) : Option NDArray :=
  match a.shape with
  | [n, c, h, w] =>
      some ⟨[n, h, w, c],
        (List.range n).flatMap fun i =>
          (List.range h).flatMap fun y =>
            (List.range w).flatMap fun x =>
              (List.range c).map fun j =>
                a.data.getD (((i * c + j) * h + y) * w + x) 0⟩
  | _ => none

def flatten2D (a : NDArray) : Option NDArray :=
  match a.shape with
  | n :: rest => some ⟨[n, rest.prod], a.data⟩
  | [] => none

def flatten_pred (a : NDArray) : Option NDArray := do
  let t ← transpose0231 a
  flatten2D t

def row2D (a : NDArray) (i : ℕ) : List ℚ :=
  (a.data.drop (i * a.shape.getD 1 0)).take (a.shape.getD 1 0)

def concatDim1of2D (arrs : List NDArray) : Option NDArray :=
  match arrs with
  | [] => none
  | a0 :: rest =>
      if a0.shape.length = 2 ∧ ∀ t ∈ rest, t.shape.length = a0.shape.length ∧
          t.shape.eraseIdx 1 = a0.shape.eraseIdx 1 then
        some ⟨a0.shape.set 1 ((arrs.map (fun t => t.shape.getD 1 0)).sum),
          (List.range (a0.shape.getD 0 0)).flatMap fun i =>
            arrs.flatMap fun t => row2D t i⟩
      else none

def concat_preds (preds : List NDArray) : Option NDArray := do
  let fs ← preds.mapM flatten_pred
  concatDim1of2D fs

/-- The geometric-mean interpolation property of the size table at scale i,
exactly as the spec states it: the second entry of sizes[i] is the square
root of the product of sizes[i]'s first entry and sizes[i+1]'s first entry,
to within half a unit in the last (third) listed decimal place. -/
def geomMeanRel (i : ℕ) : Prop :=
  ∃ a b c d : ℚ, sizes[i]? = some [a, b] ∧ sizes[i + 1]? = some [c, d] ∧
    |(b : ℝ) - Real.sqrt ((a : ℝ) * (c : ℝ))| ≤ 1 / 2000

/-- Embedding of the index comprehension in predict: enumerate the rows of
the detection matrix output[0] and keep the indices of the rows whose first
entry (the class id) is not -1. -/
def predictIdx (out0 : List (List ℚ)) : List ℕ :=
  (out0.enum.filter (fun p => decide (p.2.getD 0 0 ≠ -1))).map Prod.fst

/-- Embedding of the return value of predict: the rows of output[0] selected
at the kept indices, in index order. -/
def predictRows (out0 : List (List ℚ)) : List (List ℚ) :=
  (predictIdx out0).map (fun i => out0.getD i [])

/-- The three sub-components TinySSD creates for each of the five scales:
a block, a class-prediction head and a bbox-prediction head.  The tensor
type and the layer semantics stay abstract; only the wiring is compared. -/
structure Comp (T : Type) where
  blk : T → T
  cls : T → T
  bbox : T → T

/-- Embedding of blk_forward over an abstract tensor type: run the block,
then the MultiBoxPrior library call with the scale's sizes and ratios, and
the two prediction heads. -/
def blk_forward {T : Type} (mbp : T → List ℚ → List ℚ → T) (X : T)
    (blk : T → T) (sz rt : List ℚ) (cls_p bbox_p : T → T) : T × T × T × T :=
  let Y := blk X
  (Y, mbp Y sz rt, cls_p Y, bbox_p Y)

/-- The attribute list TinySSD.__init__ builds with setattr: for i in 0..4
the string-named attributes blk_i, cls_i and bbox_i, in creation order. -/
def tinySSDAttrs {T : Type} (comps : ℕ → Comp T) : List (String × (T → T)) :=
  (List.range 5).flatMap fun i =>
    [("blk_" ++ toString i, (comps i).blk),
     ("cls_" ++ toString i, (comps i).cls),
     ("bbox_" ++ toString i, (comps i).bbox)]

/-- Dynamic attribute lookup by name over the attribute list. -/
def getattr {T : Type} (attrs : List (String × (T → T))) (name : String) :
    T → T :=
  ((attrs.find? (fun p => p.1 == name)).map Prod.snd).getD id

/-- concat_preds over the abstract tensor type: flatten each prediction and
concatenate. -/
def concat_predsT {T : Type} (concatT : List T → T) (flattenT : T → T)
    (ps : List T) : T :=
  concatT (ps.map flattenT)

/-- Embedding of TinySSD.forward as written: five loop iterations that fetch
blk_i, cls_i and bbox_i through getattr on the string-keyed attribute list,
fill the i-th slot of the three [None]*5 accumulators, then concatenate the
collected anchors, reshape the concatenated class predictions and
concatenate the bbox predictions. -/
def forwardSrc {T : Type} (mbp : T → List ℚ → List ℚ → T)
    (concatT : List T → T) (flattenT : T → T) (reshapeT : T → T)
    (comps : ℕ → Comp T) (X : T) : T × T × T :=
  let attrs := tinySSDAttrs comps
  let st := (List.range 5).foldl
    (fun (st : T × List (Option T) × List (Option T) × List (Option T)) i =>
      let r := blk_forward mbp st.1 (getattr attrs ("blk_" ++ toString i))
        (sizes.getD i []) (ratios.getD i [])
        (getattr attrs ("cls_" ++ toString i))
        (getattr attrs ("bbox_" ++ toString i))
      (r.1, st.2.1.set i (some r.2.1), st.2.2.1.set i (some r.2.2.1),
        st.2.2.2.set i (some r.2.2.2)))
    (X, List.replicate 5 none, List.replicate 5 none, List.replicate 5 none)
  (concatT st.2.1.reduceOption,
    reshapeT (concat_predsT concatT flattenT st.2.2.1.reduceOption),
    concat_predsT concatT flattenT st.2.2.2.reduceOption)

/-- The statically-typed reference model: the same fifteen sub-components
held as an ordered list of five (block, class head, bbox head) triples,
iterated in index order with the same per-scale computation. -/
def forwardSpec {T : Type} (mbp : T → List ℚ → List ℚ → T)
    (concatT : List T → T) (flattenT : T → T) (reshapeT : T → T)
    (comps5 : List (Comp T)) (X : T) : T × T × T :=
  let st := comps5.enum.foldl
    (fun (st : T × List T × List T × List T) ic =>
      let r := blk_forward mbp st.1 ic.2.blk (sizes.getD ic.1 [])
        (ratios.getD ic.1 []) ic.2.cls ic.2.bbox
      (r.1, st.2.1 ++ [r.2.1], st.2.2.1 ++ [r.2.2.1], st.2.2.2 ++ [r.2.2.2]))
    (X, [], [], [])
  (concatT st.2.1, reshapeT (concat_predsT concatT flattenT st.2.2.1),
    concat_predsT concatT flattenT st.2.2.2)

end SSD

namespace Training

inductive Ev (B : Type) where
  | lossE : B → Ev B
  | backE : B → Ev B
  | sgdE : B → Ev B
  | trainerE : B → Ev B

def lossSeq {B : Type} (t : List (Ev B)) : List B :=
  t.filterMap fun e => match e with | .lossE b => some b | _ => none

def backSeq {B : Type} (t : List (Ev B)) : List B :=
  t.filterMap fun e => match e with | .backE b => some b | _ => none

def stepSeq {B : Type} (t : List (Ev B)) : List B :=
  t.filterMap fun e =>
    match e with
    | .sgdE b => some b
    | .trainerE b => some b
    | _ => none

def train_ch3_epoch {S B Y L : Type} (netF : S → B → Y) (lossF : Y → B → L)
    (backF : S → L → S) (sgdF : S → S) (trainerF : S → S) (useTrainer : Bool)
    (metricF : S → Y → L → B → S) : S → List B → S × List (Ev B)
  | s, [] => (s, [])
  | s, b :: rest =>
      let y_hat := netF s b
      let l := lossF y_hat b
      let s1 := backF s l
      let s2 := if useTrainer then trainerF s1 else sgdF s1
      let s3 := metricF s2 y_hat l b
      ((train_ch3_epoch netF lossF backF sgdF trainerF useTrainer metricF
          s3 rest).1,
        Ev.lossE b :: Ev.backE b ::
          (if useTrainer then Ev.trainerE b else Ev.sgdE b) ::
          (train_ch3_epoch netF lossF backF sgdF trainerF useTrainer metricF
            s3 rest).2)

def train_ch3 {S B Y L : Type} (netF : S → B → Y) (lossF : Y → B → L)
    (backF : S → L → S) (sgdF : S → S) (trainerF : S → S) (useTrainer : Bool)
    (metricF : S → Y → L → B → S) (evalF : S → S) :
    ℕ → S → List B → S × List (Ev B)
  | 0, s, _ => (s, [])
  | e + 1, s, batches =>
      let r1 := train_ch3_epoch netF lossF backF sgdF trainerF useTrainer
        metricF s batches
      let s2 := evalF r1.1
      let r2 := train_ch3 netF lossF backF sgdF trainerF useTrainer metricF
        evalF e s2 batches
      (r2.1, r1.2 ++ r2.2)

def ssd_epoch {S B Out Tgt L : Type} (netF : S → B → Out)
    (targetF : Out → B → Tgt) (lossF : Out → Tgt → L) (backF : S → L → S)
    (stepF : S → S) (metricF : S → Out → Tgt → S) :
    S → List B → S × List (Ev B)
  | s, [] => (s, [])
  | s, b :: rest =>
      let out := netF s b
      let tgt := targetF out b
      let l := lossF out tgt
      let s1 := backF s l
      let s2 := stepF s1
      let s3 := metricF s2 out tgt
      ((ssd_epoch netF targetF lossF backF stepF metricF s3 rest).1,
        Ev.lossE b :: Ev.backE b :: Ev.trainerE b ::
          (ssd_epoch netF targetF lossF backF stepF metricF s3 rest).2)

def ssd_train {S B Out Tgt L : Type} (netF : S → B → Out)
    (targetF : Out → B → Tgt) (lossF : Out → Tgt → L) (backF : S → L → S)
    (stepF : S → S) (metricF : S → Out → Tgt → S) :
    ℕ → S → List B → S × List (Ev B)
  | 0, s, _ => (s, [])
  | e + 1, s, batches =>
      let r1 := ssd_epoch netF targetF lossF backF stepF metricF s batches
      let r2 := ssd_train netF targetF lossF backF stepF metricF e r1.1
        batches
      (r2.1, r1.2 ++ r2.2)

end Training

namespace ErrProp

def predictE {T E : Type} (asCtx : T → Except E T)
    (netF : T → Except E (T × T × T)) (softmaxF : T → Except E T)
    (transposeF : T → Except E T) (mbd : T → T → T → Except E T)
    (selectRows : T → Except E T) (X : T) : Except E T := do
  let Xc ← asCtx X
  let r ← netF Xc
  let sm ← softmaxF r.2.1
  let cls_probs ← transposeF sm
  let output ← mbd cls_probs r.2.2 r.1
  selectRows output

def train_ch3_bodyE {P B Y L G E : Type} (netF : P → B → Except E Y)
    (lossF : Y → B → Except E L) (backF : L → Except E G)
    (stepF : P → G → Except E P) (p : P) (b : B) : Except E P := do
  let y_hat ← netF p b
  let l ← lossF y_hat b
  let g ← backF l
  stepF p g

end ErrProp

namespace SoftmaxScratch

/-- Sum of a list after dividing every element by a constant. -/
theorem sum_map_div (l : List ℝ) (c : ℝ) :
    (l.map (fun v => v / c)).sum = l.sum / c := by
  induction l with
  | nil => simp
  | cons a t ih => simp [ih, add_div]

/-- C2: for every real matrix whose rows are nonempty, every entry of
softmax(X) is non-negative and every row of softmax(X) sums to 1. -/
theorem C2_softmax_prob_rows (X : List (List ℝ)) (hX : ∀ row ∈ X, row ≠ []) :
    ∀ row ∈ softmax X, (∀ v ∈ row, 0 ≤ v) ∧ row.sum = 1 := by
  intro row hrow
  rw [softmax, List.mem_map] at hrow
  obtain ⟨r, hr, rfl⟩ := hrow
  have hpos : 0 < (r.map Real.exp).sum := by
    refine List.sum_pos _ ?_ ?_
    · intro x hx
      rw [List.mem_map] at hx
      obtain ⟨a, _, rfl⟩ := hx
      exact Real.exp_pos a
    · simpa using hX r hr
  refine ⟨?_, ?_⟩
  · intro v hv
    rw [List.mem_map] at hv
    obtain ⟨a, ha, rfl⟩ := hv
    rw [List.mem_map] at ha
    obtain ⟨b, _, rfl⟩ := ha
    exact div_nonneg (Real.exp_pos b).le hpos.le
  · rw [sum_map_div, div_self hpos.ne']

/-- Witness for C2 at the concrete one-row matrix [[0]]: its single softmax
row sums to 1 and its single entry is non-negative. -/
theorem C2_softmax_prob_rows_witness :
    ((softmax [[(0 : ℝ)]]).getD 0 []).sum = 1 ∧
    0 ≤ ((softmax [[(0 : ℝ)]]).getD 0 []).getD 0 0 := by
  have h := C2_softmax_prob_rows [[(0 : ℝ)]] (by simp)
  have hm : (softmax [[(0 : ℝ)]]).getD 0 [] ∈ softmax [[(0 : ℝ)]] := by
    simp [softmax]
  obtain ⟨h1, h2⟩ := h _ hm
  refine ⟨h2, ?_⟩
  apply h1
  simp [softmax]

/-- The indicator sum computed by accuracy counts exactly the row indices
whose argmax matches the label. -/
theorem acc_indicator_sum : ∀ (yh : List (List ℚ)) (y : List ℚ),
    yh.length = y.length →
    (((yh.map (fun r => (rowArgmax r : ℚ))).zip y).map
        (fun p => if p.1 = p.2 then (1 : ℚ) else 0)).sum
      = (((List.range yh.length).filter
          (fun i => decide ((rowArgmax (yh.getD i []) : ℚ) = y.getD i 0))).length : ℚ) := by
  intro yh
  induction yh with
  | nil => intro y h; simp
  | cons r t ih =>
    intro y h
    cases y with
    | nil => simp at h
    | cons b yt =>
      have h' : t.length = yt.length := by simpa using h
      have IH := ih yt h'
      simp only [List.map_cons, List.zip_cons_cons, List.sum_cons, List.length_cons,
        List.range_succ_eq_map, List.filter, List.getD_cons_zero]
      by_cases hc : (rowArgmax r : ℚ) = b
      · simp [hc, List.filter_map, Function.comp_def, IH, add_comm]
      · simp [hc, List.filter_map, Function.comp_def, IH]

/-- C10: for prediction rows and labels of equal length, accuracy equals the
fraction of rows whose argmax index equals the corresponding label. -/
theorem C10_accuracy_is_match_fraction (y_hat : List (List ℚ)) (y : List ℚ)
    (h : y_hat.length = y.length) :
    accuracy y_hat y = matchFraction y_hat y := by
  simp only [accuracy, matchFraction]
  rw [acc_indicator_sum _ _ h]
  congr 1
  simp [h]

/-- Witness for C10 at the notebook's concrete example, whose accuracy is
one half. -/
theorem C10_accuracy_is_match_fraction_witness :
    accuracy [[0.1, 0.3, 0.6], [0.3, 0.2, 0.5]] [0, 2] = 1 / 2 :=
  (C10_accuracy_is_match_fraction [[0.1, 0.3, 0.6], [0.3, 0.2, 0.5]] [0, 2]
    (by decide)).trans
    (by norm_num [matchFraction, rowArgmax, max_def, List.indexOf_cons, List.range_succ])

end SoftmaxScratch

namespace SSD

/-- A stride-1 conv with kernel 3 and padding 1 preserves a positive
spatial dimension. -/
theorem convDim_three_one (h : ℕ) (h0 : 0 < h) : convDim h 3 1 = some h := by
  unfold convDim
  rw [if_pos (by omega)]
  congr 1
  omega

/-- down_sample_blk k maps (n, c, h, w) with h, w positive and even to
(n, k, h/2, w/2). -/
theorem down_sample_blk_shape (n c h w k : ℕ) (hh : Even h) (hw : Even w)
    (h0 : 0 < h) (w0 : 0 < w) :
    seqShape (down_sample_blk k) [n, c, h, w] = some [n, k, h / 2, w / 2] := by
  obtain ⟨a, ha⟩ := hh
  obtain ⟨b, hb⟩ := hw
  have hh2 : 2 ≤ h := by omega
  have hw2 : 2 ≤ w := by omega
  simp [down_sample_blk, seqShape, List.foldlM, layerShape,
    convDim_three_one h h0, convDim_three_one w w0, hh2, hw2]
  omega

/-- base_net maps (n, 3, 256, 256) to (n, 64, 32, 32). -/
theorem base_net_shape (n : ℕ) :
    seqShape base_net [n, 3, 256, 256] = some [n, 64, 32, 32] := by
  have e1 := down_sample_blk_shape n 3 256 256 16 (by decide) (by decide)
    (by decide) (by decide)
  have e2 := down_sample_blk_shape n 16 128 128 32 (by decide) (by decide)
    (by decide) (by decide)
  have e3 := down_sample_blk_shape n 32 64 64 64 (by decide) (by decide)
    (by decide) (by decide)
  simp only [seqShape] at e1 e2 e3
  simp [base_net, seqShape, List.flatMap, List.foldlM_append, e1, e2, e3]

/-- C8: on every nonempty input with even height and width, a downsample
block with k filters halves height and width and outputs k channels; in
particular the base network maps (n, 3, 256, 256) to (n, 64, 32, 32). -/
theorem C8_down_sample_blk_halves (n c h w k : ℕ) (hh : Even h) (hw : Even w)
    (h0 : 0 < h) (w0 : 0 < w) :
    seqShape (down_sample_blk k) [n, c, h, w] = some [n, k, h / 2, w / 2] ∧
    seqShape base_net [n, 3, 256, 256] = some [n, 64, 32, 32] :=
  ⟨down_sample_blk_shape n c h w k hh hw h0 w0, base_net_shape n⟩

/-- Witness for C8 at the notebook's own smoke test: a 10-filter downsample
block on a (2, 3, 20, 20) input gives (2, 10, 10, 10). -/
theorem C8_down_sample_blk_halves_witness :
    seqShape (down_sample_blk 10) [2, 3, 20, 20] = some [2, 10, 10, 10] ∧
    seqShape base_net [2, 3, 256, 256] = some [2, 64, 32, 32] :=
  C8_down_sample_blk_halves 2 3 20 20 10 (by decide) (by decide) (by decide)
    (by decide)

/-- Scale 0 of the forward loop: the base network brings (n, 3, 256, 256)
to (n, 64, 32, 32), generating 32 * 32 * 4 anchors. -/
theorem tinySSDStep_zero (q n : ℕ) (as cs bs : List (List ℕ)) :
    tinySSDStep q ([n, 3, 256, 256], as, cs, bs) 0
      = some ([n, 64, 32, 32], as ++ [[1, 4096, 4]],
          cs ++ [[n, 4 * (q + 1), 32, 32]], bs ++ [[n, 16, 32, 32]]) := by
  simp [tinySSDStep, blk_forwardShape, get_blk, base_net_shape,
    multiBoxPriorShape, layerShape, cls_predictor, bbox_predictor,
    num_anchors, sizes, ratios, convDim]

/-- Scale 1 of the forward loop: a 128-filter downsample block brings
(n, 64, 32, 32) to (n, 128, 16, 16), generating 16 * 16 * 4 anchors. -/
theorem tinySSDStep_one (q n : ℕ) (as cs bs : List (List ℕ)) :
    tinySSDStep q ([n, 64, 32, 32], as, cs, bs) 1
      = some ([n, 128, 16, 16], as ++ [[1, 1024, 4]],
          cs ++ [[n, 4 * (q + 1), 16, 16]], bs ++ [[n, 16, 16, 16]]) := by
  have e := down_sample_blk_shape n 64 32 32 128 (by decide) (by decide)
    (by decide) (by decide)
  simp [tinySSDStep, blk_forwardShape, get_blk, e, multiBoxPriorShape,
    layerShape, cls_predictor, bbox_predictor, num_anchors, sizes, ratios,
    convDim]

/-- Scale 2 of the forward loop: (n, 128, 16, 16) to (n, 128, 8, 8). -/
theorem tinySSDStep_two (q n : ℕ) (as cs bs : List (List ℕ)) :
    tinySSDStep q ([n, 128, 16, 16], as, cs, bs) 2
      = some ([n, 128, 8, 8], as ++ [[1, 256, 4]],
          cs ++ [[n, 4 * (q + 1), 8, 8]], bs ++ [[n, 16, 8, 8]]) := by
  have e := down_sample_blk_shape n 128 16 16 128 (by decide) (by decide)
    (by decide) (by decide)
  simp [tinySSDStep, blk_forwardShape, get_blk, e, multiBoxPriorShape,
    layerShape, cls_predictor, bbox_predictor, num_anchors, sizes, ratios,
    convDim]

/-- Scale 3 of the forward loop: (n, 128, 8, 8) to (n, 128, 4, 4). -/
theorem tinySSDStep_three (q n : ℕ) (as cs bs : List (List ℕ)) :
    tinySSDStep q ([n, 128, 8, 8], as, cs, bs) 3
      = some ([n, 128, 4, 4], as ++ [[1, 64, 4]],
          cs ++ [[n, 4 * (q + 1), 4, 4]], bs ++ [[n, 16, 4, 4]]) := by
  have e := down_sample_blk_shape n 128 8 8 128 (by decide) (by decide)
    (by decide) (by decide)
  simp [tinySSDStep, blk_forwardShape, get_blk, e, multiBoxPriorShape,
    layerShape, cls_predictor, bbox_predictor, num_anchors, sizes, ratios,
    convDim]

/-- Scale 4 of the forward loop: global max pooling brings (n, 128, 4, 4)
to (n, 128, 1, 1), generating the last 4 anchors. -/
theorem tinySSDStep_four (q n : ℕ) (as cs bs : List (List ℕ)) :
    tinySSDStep q ([n, 128, 4, 4], as, cs, bs) 4
      = some ([n, 128, 1, 1], as ++ [[1, 4, 4]],
          cs ++ [[n, 4 * (q + 1), 1, 1]], bs ++ [[n, 16, 1, 1]]) := by
  simp [tinySSDStep, blk_forwardShape, get_blk, seqShape, List.foldlM,
    multiBoxPriorShape, layerShape, cls_predictor, bbox_predictor,
    num_anchors, sizes, ratios, convDim]

/-- C1: on a batch of (n, 3, 256, 256) inputs, TinySSD produces the
concatenated anchors with shape (1, 5444, 4) - 5444 anchor boxes per image -
and class predictions reshaped to (n, 5444, q + 1), with 5444 entries along
the middle dimension; the bbox output is (n, 5444 * 4). -/
theorem C1_tinySSD_output_shapes (n q : ℕ) :
    tinySSDForwardShape q [n, 3, 256, 256]
      = some ([1, 5444, 4], [n, 5444, q + 1], [n, 21776]) := by
  have hcls : concat_predsShape
      [[n, 4 * (q + 1), 32, 32], [n, 4 * (q + 1), 16, 16],
        [n, 4 * (q + 1), 8, 8], [n, 4 * (q + 1), 4, 4],
        [n, 4 * (q + 1), 1, 1]] = some [n, 5444 * (q + 1)] := by
    simp [concat_predsShape, flatten_predShape, concatDim1Shape,
      List.mapM, List.mapM.loop]
    omega
  have hres : reshapeTo3Shape (q + 1) [n, 5444 * (q + 1)]
      = some [n, 5444, q + 1] := by
    show (if 0 < q + 1 ∧ (q + 1) ∣ 5444 * (q + 1) then
        some [n, 5444 * (q + 1) / (q + 1), q + 1] else none)
      = some [n, 5444, q + 1]
    rw [if_pos (⟨q.succ_pos, dvd_mul_left (q + 1) 5444⟩ :
      0 < q + 1 ∧ (q + 1) ∣ 5444 * (q + 1))]
    rw [Nat.mul_div_cancel 5444 q.succ_pos]
  have hbox : concat_predsShape
      [[n, 16, 32, 32], [n, 16, 16, 16], [n, 16, 8, 8], [n, 16, 4, 4],
        [n, 16, 1, 1]] = some [n, 21776] := by
    simp [concat_predsShape, flatten_predShape, concatDim1Shape,
      List.mapM, List.mapM.loop]
  have hanc : concatDim1Shape
      [[1, 4096, 4], [1, 1024, 4], [1, 256, 4], [1, 64, 4], [1, 4, 4]]
      = some [1, 5444, 4] := by
    simp [concatDim1Shape]
  simp [tinySSDForwardShape, show List.range 5 = [0, 1, 2, 3, 4] from rfl,
    List.foldlM, tinySSDStep_zero, tinySSDStep_one, tinySSDStep_two,
    tinySSDStep_three, tinySSDStep_four, hanc, hcls, hres, hbox]

theorem length_flatMap_const {α : Type} (n k : ℕ) (f : ℕ → List α)
    (h : ∀ i ∈ List.range n, (f i).length = k) :
    ((List.range n).flatMap f).length = n * k := by
  rw [List.length_flatMap, Function.comp_def, List.map_congr_left h]
  simp [List.map_const, mul_comm]

theorem transpose_len (a : NDArray) (n c h w : ℕ) (hs : a.shape = [n, c, h, w]) :
    ∃ t, transpose0231 a = some t ∧ t.shape = [n, h, w, c] ∧
      t.data.length = n * (h * (w * c)) := by
  refine ⟨_, by rw [transpose0231, hs], rfl, ?_⟩
  refine (length_flatMap_const _ _ _ (fun i _ => ?_))
  refine (length_flatMap_const _ _ _ (fun y _ => ?_))
  refine (length_flatMap_const _ _ _ (fun x _ => ?_))
  simp

theorem flatten_pred_ok (p : NDArray) (N c h w : ℕ)
    (hs : p.shape = [N, c, h, w]) :
    ∃ f, flatten_pred p = some f ∧ f.shape = [N, h * w * c] ∧
      f.data.length = N * (h * w * c) := by
  obtain ⟨⟨tsh, td⟩, ht, hts, htl⟩ := transpose_len p N c h w hs
  simp only at hts htl
  subst hts
  refine ⟨⟨[N, h * w * c], td⟩, ?_, rfl, by rw [htl]; ring⟩
  rw [flatten_pred, ht]
  simp [flatten2D]
  ring

theorem row2D_len (t : NDArray) (N m i : ℕ) (hs : t.shape = [N, m])
    (hl : t.data.length = N * m) (hi : i < N) : (row2D t i).length = m := by
  have h1 : (N - i) * m = N * m - i * m := Nat.sub_mul N i m
  have h2 : 1 * m ≤ (N - i) * m := Nat.mul_le_mul_right m (by omega)
  simp [row2D, hs, hl]
  omega

theorem concatDim1of2D_ok (fs : List NDArray) (N : ℕ)
    (h : ∀ f ∈ fs, ∃ m, f.shape = [N, m] ∧ f.data.length = N * m)
    (hne : fs ≠ []) :
    ∃ A, concatDim1of2D fs = some A ∧
      A.shape = [N, (fs.map (fun f => f.shape.getD 1 0)).sum] ∧
      A.data.length = N * (fs.map (fun f => f.shape.getD 1 0)).sum := by
  match fs, hne with
  | a0 :: rest, _ =>
    obtain ⟨m0, hs0, hl0⟩ := h a0 (List.mem_cons_self a0 rest)
    have hcond : a0.shape.length = 2 ∧ ∀ t ∈ rest,
        t.shape.length = a0.shape.length ∧
        t.shape.eraseIdx 1 = a0.shape.eraseIdx 1 := by
      refine ⟨by rw [hs0]; rfl, fun t ht => ?_⟩
      obtain ⟨m, hsm, _⟩ := h t (List.mem_cons_of_mem a0 ht)
      rw [hsm, hs0]
      exact ⟨rfl, rfl⟩
    rw [concatDim1of2D, if_pos hcond]
    refine ⟨_, rfl, by rw [hs0]; rfl, ?_⟩
    simp only []
    rw [hs0]
    simp only [List.getD]
    refine length_flatMap_const N _ _ (fun i hi => ?_)
    rw [List.length_flatMap, Function.comp_def]
    have hrow : ∀ f ∈ a0 :: rest, (row2D f i).length = f.shape.getD 1 0 := by
      intro f hf
      obtain ⟨m, hsm, hlm⟩ := h f hf
      rw [row2D_len f N m i hsm hlm (List.mem_range.mp hi), hsm]
      rfl
    rw [List.map_congr_left hrow]
    rfl

theorem mapM_flatten_ok (preds : List NDArray) (N : ℕ)
    (hsh : ∀ p ∈ preds, ∃ c h w, p.shape = [N, c, h, w])
    (hwf : ∀ p ∈ preds, wf p) :
    ∃ fs, preds.mapM flatten_pred = some fs ∧
      List.Forall₂ (fun p f =>
        f.shape = [N, p.shape.getD 2 0 * p.shape.getD 3 0 * p.shape.getD 1 0] ∧
        f.data.length
          = N * (p.shape.getD 2 0 * p.shape.getD 3 0 * p.shape.getD 1 0))
        preds fs := by
  induction preds with
  | nil => exact ⟨[], rfl, List.Forall₂.nil⟩
  | cons p t ih =>
    obtain ⟨c, h, w, hs⟩ := hsh p (List.mem_cons_self p t)
    obtain ⟨f, hf, hfs, hfl⟩ :=
      flatten_pred_ok p N c h w hs
    obtain ⟨fs, hm, hall⟩ := ih (fun q hq => hsh q (List.mem_cons_of_mem p hq))
      (fun q hq => hwf q (List.mem_cons_of_mem p hq))
    refine ⟨f :: fs, ?_, ?_⟩
    · rw [List.mapM_cons, hf, hm]
      rfl
    · refine List.Forall₂.cons ⟨?_, ?_⟩ hall
      · rw [hs]
        simpa using hfs
      · rw [hs]
        simpa using hfl

theorem map_eq_of_forall₂ {α β γ : Type} {R : α → β → Prop} {l1 : List α}
    {l2 : List β} (h : List.Forall₂ R l1 l2) (g : β → γ) (u : α → γ)
    (hg : ∀ a b, R a b → g b = u a) : l2.map g = l1.map u := by
  induction h with
  | nil => rfl
  | cons hr _ ih => simp [hg _ _ hr, ih]

theorem mem_right_of_forall₂ {α β : Type} {R : α → β → Prop} {l1 : List α}
    {l2 : List β} (h : List.Forall₂ R l1 l2) : ∀ b ∈ l2, ∃ a, R a b := by
  induction h with
  | nil => intro b hb; cases hb
  | cons hr _ ih =>
    intro b hb
    rcases List.mem_cons.mp hb with rfl | hb2
    · exact ⟨_, hr⟩
    · exact ih b hb2

theorem C4_concat_preds (preds : List NDArray) (N : ℕ) (hne : preds ≠ [])
    (hsh : ∀ p ∈ preds, ∃ c h w, p.shape = [N, c, h, w])
    (hwf : ∀ p ∈ preds, wf p) :
    ∃ A, concat_preds preds = some A ∧
      A.shape = [N, (preds.map
          (fun p => p.shape.getD 2 0 * p.shape.getD 3 0 * p.shape.getD 1 0)).sum]
      ∧ wf A := by
  obtain ⟨fs, hm, hall⟩ := mapM_flatten_ok preds N hsh hwf
  have hne2 : fs ≠ [] := by
    intro hnil
    subst hnil
    cases hall
    exact hne rfl
  obtain ⟨A, hc, hsA, hlA⟩ := concatDim1of2D_ok fs N
    (fun f hf => by
      obtain ⟨p, hr⟩ := mem_right_of_forall₂ hall f hf
      exact ⟨_, hr.1, hr.2⟩) hne2
  have hmap : fs.map (fun f => f.shape.getD 1 0)
      = preds.map
        (fun p => p.shape.getD 2 0 * p.shape.getD 3 0 * p.shape.getD 1 0) :=
    map_eq_of_forall₂ hall _ _ (fun p f hr => by rw [hr.1]; rfl)
  refine ⟨A, ?_, ?_, ?_⟩
  · show (preds.mapM flatten_pred).bind (fun fs => concatDim1of2D fs) = some A
    rw [hm]
    exact hc
  · rw [hsA, hmap]
  · show A.data.length = A.shape.prod
    rw [hlA, hsA]
    simp [mul_comm]

/-- Witness for C4 on two concrete arrays of shapes (1, 1, 1, 1) and
(1, 2, 1, 1). -/
theorem C4_concat_preds_witness :
    ∃ A, concat_preds [⟨[1, 1, 1, 1], [5]⟩, ⟨[1, 2, 1, 1], [7, 9]⟩] = some A ∧
      A.shape = [1, 3] ∧ wf A := by
  obtain ⟨A, h1, h2, h3⟩ :=
    C4_concat_preds [⟨[1, 1, 1, 1], [5]⟩, ⟨[1, 2, 1, 1], [7, 9]⟩] 1
      (by simp)
      (by
        intro p hp
        simp only [List.mem_cons, List.not_mem_nil, or_false] at hp
        rcases hp with rfl | rfl
        · exact ⟨1, 1, 1, rfl⟩
        · exact ⟨2, 1, 1, rfl⟩)
      (by
        intro p hp
        simp only [List.mem_cons, List.not_mem_nil, or_false] at hp
        rcases hp with rfl | rfl <;> rfl)
  refine ⟨A, h1, ?_, h3⟩
  rw [h2]
  decide

/-- An error bound for a square root follows from squaring both ends of the
interval. -/
theorem abs_sub_sqrt_le (a x ε : ℝ) (he : 0 ≤ ε) (ha : ε ≤ a)
    (h1 : (a - ε) ^ 2 ≤ x) (h2 : x ≤ (a + ε) ^ 2) :
    |a - Real.sqrt x| ≤ ε := by
  rw [abs_le]
  constructor
  · have h := Real.sqrt_le_sqrt h2
    rw [Real.sqrt_sq (by linarith)] at h
    linarith
  · have h := Real.sqrt_le_sqrt h1
    rw [Real.sqrt_sq (by linarith)] at h
    linarith

/-- C3 as stated is false: at the fifth scale (i = 4) the table has no next
scale, so no first size of a scale 5 exists for the interpolation to refer
to. -/
theorem C3_counterexample : ¬ (∀ i, i < 5 → geomMeanRel i) := by
  intro h
  obtain ⟨a, b, c, d, _, h2, _⟩ := h 4 (by norm_num)
  simp [sizes] at h2

/-- C3 amended: the geometric-mean interpolation holds at every scale that
has a next scale (i = 0..3), and at the last scale it holds with the next
first size taken as the schedule's interval endpoint 1.05. -/
theorem C3_sizes_geometric_mean :
    (∀ i, i < 4 → geomMeanRel i) ∧
    (∃ a b : ℚ, sizes[4]? = some [a, b] ∧
      |(b : ℝ) - Real.sqrt ((a : ℝ) * 1.05)| ≤ 1 / 2000) := by
  constructor
  · intro i hi
    interval_cases i
    · exact ⟨0.2, 0.272, 0.37, 0.447, by simp [sizes], by simp [sizes],
        by
          refine abs_sub_sqrt_le _ _ _ (by norm_num) (by push_cast; norm_num)
            ?_ ?_ <;> push_cast <;> norm_num⟩
    · exact ⟨0.37, 0.447, 0.54, 0.619, by simp [sizes], by simp [sizes],
        by
          refine abs_sub_sqrt_le _ _ _ (by norm_num) (by push_cast; norm_num)
            ?_ ?_ <;> push_cast <;> norm_num⟩
    · exact ⟨0.54, 0.619, 0.71, 0.79, by simp [sizes], by simp [sizes],
        by
          refine abs_sub_sqrt_le _ _ _ (by norm_num) (by push_cast; norm_num)
            ?_ ?_ <;> push_cast <;> norm_num⟩
    · exact ⟨0.71, 0.79, 0.88, 0.961, by simp [sizes], by simp [sizes],
        by
          refine abs_sub_sqrt_le _ _ _ (by norm_num) (by push_cast; norm_num)
            ?_ ?_ <;> push_cast <;> norm_num⟩
  · exact ⟨0.88, 0.961, by simp [sizes],
      by
        refine abs_sub_sqrt_le _ _ _ (by norm_num) (by push_cast; norm_num)
          ?_ ?_ <;> push_cast <;> norm_num⟩

/-- Witness for C3 at the first scale. -/
theorem C3_sizes_geometric_mean_witness : geomMeanRel 0 :=
  C3_sizes_geometric_mean.1 0 (by norm_num)

/-- C9: the rows predict returns are exactly the rows of the detection
matrix whose class id is not -1, kept in their original relative order; in
particular every returned row has class id different from -1. -/
theorem C9_predict_drops_removed_rows (out0 : List (List ℚ)) :
    predictRows out0 = out0.filter (fun row => decide (row.getD 0 0 ≠ -1)) ∧
    ∀ row ∈ predictRows out0, row.getD 0 0 ≠ -1 := by
  have hmain : predictRows out0
      = out0.filter (fun row => decide (row.getD 0 0 ≠ -1)) := by
    unfold predictRows predictIdx
    rw [List.map_map]
    have hmem : ∀ p ∈ out0.enum.filter (fun p => decide (p.2.getD 0 0 ≠ -1)),
        ((fun i => out0.getD i []) ∘ Prod.fst) p = Prod.snd p := by
      intro p hp
      have hp2 := List.mem_of_mem_filter hp
      obtain ⟨i, a⟩ := p
      rw [List.mem_enum_iff_getElem?] at hp2
      simp [List.getD, hp2]
    rw [List.map_congr_left hmem]
    conv_rhs => rw [← List.enum_map_snd out0]
    rw [List.filter_map]
    rfl
  refine ⟨hmain, ?_⟩
  rw [hmain]
  intro row hrow
  simpa using List.of_mem_filter hrow

/-- C5: for every input and every choice of sub-components and library
semantics, the getattr-based forward pass computes exactly the same
(anchors, class predictions, bbox predictions) triple as the model holding
the same five (block, class head, bbox head) triples in an ordered
collection iterated in index order. -/
theorem C5_forward_getattr_equiv {T : Type} (mbp : T → List ℚ → List ℚ → T)
    (concatT : List T → T) (flattenT : T → T) (reshapeT : T → T)
    (comps : ℕ → Comp T) (X : T) :
    forwardSrc mbp concatT flattenT reshapeT comps X
      = forwardSpec mbp concatT flattenT reshapeT
          [comps 0, comps 1, comps 2, comps 3, comps 4] X := rfl

end SSD

namespace Training

theorem train_ch3_epoch_trace {S B Y L : Type} (netF : S → B → Y)
    (lossF : Y → B → L) (backF : S → L → S) (sgdF trainerF : S → S)
    (useTrainer : Bool) (metricF : S → Y → L → B → S) :
    ∀ (bs : List B) (s : S),
      (train_ch3_epoch netF lossF backF sgdF trainerF useTrainer metricF
        s bs).2
      = bs.flatMap (fun b => [Ev.lossE b, Ev.backE b,
          if useTrainer then Ev.trainerE b else Ev.sgdE b]) := by
  intro bs
  induction bs with
  | nil => intro s; rfl
  | cons b rest ih => intro s; simp [train_ch3_epoch, ih]

theorem train_ch3_trace {S B Y L : Type} (netF : S → B → Y)
    (lossF : Y → B → L) (backF : S → L → S) (sgdF trainerF : S → S)
    (useTrainer : Bool) (metricF : S → Y → L → B → S) (evalF : S → S)
    (bs : List B) :
    ∀ (E : ℕ) (s : S),
      (train_ch3 netF lossF backF sgdF trainerF useTrainer metricF evalF
        E s bs).2
      = ((List.replicate E bs).flatten).flatMap (fun b => [Ev.lossE b,
          Ev.backE b, if useTrainer then Ev.trainerE b else Ev.sgdE b]) := by
  intro E
  induction E with
  | zero => intro s; rfl
  | succ e ih =>
    intro s
    simp [train_ch3, train_ch3_epoch_trace, ih, List.replicate_succ]

theorem lossSeq_events {B : Type} (useTrainer : Bool) :
    ∀ bs : List B,
      lossSeq (bs.flatMap (fun b => [Ev.lossE b, Ev.backE b,
        if useTrainer then Ev.trainerE b else Ev.sgdE b])) = bs := by
  intro bs
  induction bs with
  | nil => rfl
  | cons b rest ih =>
    cases useTrainer <;> simp_all [lossSeq, List.filterMap_cons]

theorem backSeq_events {B : Type} (useTrainer : Bool) :
    ∀ bs : List B,
      backSeq (bs.flatMap (fun b => [Ev.lossE b, Ev.backE b,
        if useTrainer then Ev.trainerE b else Ev.sgdE b])) = bs := by
  intro bs
  induction bs with
  | nil => rfl
  | cons b rest ih =>
    cases useTrainer <;> simp_all [backSeq, List.filterMap_cons]

theorem stepSeq_events {B : Type} (useTrainer : Bool) :
    ∀ bs : List B,
      stepSeq (bs.flatMap (fun b => [Ev.lossE b, Ev.backE b,
        if useTrainer then Ev.trainerE b else Ev.sgdE b])) = bs := by
  intro bs
  induction bs with
  | nil => rfl
  | cons b rest ih =>
    cases useTrainer <;> simp_all [stepSeq, List.filterMap_cons]

theorem ssd_epoch_trace {S B Out Tgt L : Type} (netF : S → B → Out)
    (targetF : Out → B → Tgt) (lossF : Out → Tgt → L) (backF : S → L → S)
    (stepF : S → S) (metricF : S → Out → Tgt → S) :
    ∀ (bs : List B) (s : S),
      (ssd_epoch netF targetF lossF backF stepF metricF s bs).2
      = bs.flatMap (fun b => [Ev.lossE b, Ev.backE b, Ev.trainerE b]) := by
  intro bs
  induction bs with
  | nil => intro s; rfl
  | cons b rest ih => intro s; simp [ssd_epoch, ih]

theorem ssd_train_trace {S B Out Tgt L : Type} (netF : S → B → Out)
    (targetF : Out → B → Tgt) (lossF : Out → Tgt → L) (backF : S → L → S)
    (stepF : S → S) (metricF : S → Out → Tgt → S) (bs : List B) :
    ∀ (E : ℕ) (s : S),
      (ssd_train netF targetF lossF backF stepF metricF E s bs).2
      = ((List.replicate E bs).flatten).flatMap
          (fun b => [Ev.lossE b, Ev.backE b, Ev.trainerE b]) := by
  intro E
  induction E with
  | zero => intro s; rfl
  | succ e ih =>
    intro s
    simp [ssd_train, ssd_epoch_trace, ih, List.replicate_succ]

theorem C6_training_loops_once_per_batch {S B Y L S2 B2 Out Tgt L2 : Type} (netF : S → B → Y)
    (lossF : Y → B → L) (backF : S → L → S) (sgdF trainerF : S → S)
    (useTrainer : Bool) (metricF : S → Y → L → B → S) (evalF : S → S)
    (E : ℕ) (s : S) (bs : List B)
    (netG : S2 → B2 → Out) (targetG : Out → B2 → Tgt)
    (lossG : Out → Tgt → L2) (backG : S2 → L2 → S2) (stepG : S2 → S2)
    (metricG : S2 → Out → Tgt → S2) (s2 : S2) (bs2 : List B2) :
    (lossSeq (train_ch3 netF lossF backF sgdF trainerF useTrainer metricF
        evalF E s bs).2 = (List.replicate E bs).flatten ∧
      backSeq (train_ch3 netF lossF backF sgdF trainerF useTrainer metricF
        evalF E s bs).2 = (List.replicate E bs).flatten ∧
      stepSeq (train_ch3 netF lossF backF sgdF trainerF useTrainer metricF
        evalF E s bs).2 = (List.replicate E bs).flatten) ∧
    (lossSeq (ssd_train netG targetG lossG backG stepG metricG
        20 s2 bs2).2 = (List.replicate 20 bs2).flatten ∧
      backSeq (ssd_train netG targetG lossG backG stepG metricG
        20 s2 bs2).2 = (List.replicate 20 bs2).flatten ∧
      stepSeq (ssd_train netG targetG lossG backG stepG metricG
        20 s2 bs2).2 = (List.replicate 20 bs2).flatten) := by
  refine ⟨⟨?_, ?_, ?_⟩, ⟨?_, ?_, ?_⟩⟩
  · rw [train_ch3_trace, lossSeq_events]
  · rw [train_ch3_trace, backSeq_events]
  · rw [train_ch3_trace, stepSeq_events]
  · rw [ssd_train_trace]
    have := lossSeq_events (B := B2) true ((List.replicate 20 bs2).flatten)
    simpa using this
  · rw [ssd_train_trace]
    have := backSeq_events (B := B2) true ((List.replicate 20 bs2).flatten)
    simpa using this
  · rw [ssd_train_trace]
    have := stepSeq_events (B := B2) true ((List.replicate 20 bs2).flatten)
    simpa using this

end Training

namespace ErrProp

theorem error_bind {E A B' : Type} (e : E) (f : A → Except E B') :
    (Except.error e >>= f) = Except.error e := rfl

theorem ok_bind {E A B' : Type} (a : A) (f : A → Except E B') :
    (Except.ok a >>= f : Except E B') = f a := rfl

theorem C7_error_propagation {T E P B Y L G : Type} (asCtx : T → Except E T)
    (netF : T → Except E (T × T × T)) (softmaxF : T → Except E T)
    (transposeF : T → Except E T) (mbd : T → T → T → Except E T)
    (selectRows : T → Except E T) (X : T)
    (netG : P → B → Except E Y) (lossG : Y → B → Except E L)
    (backG : L → Except E G) (stepG : P → G → Except E P) (p : P) (b : B) :
    (∀ e, asCtx X = .error e →
      predictE asCtx netF softmaxF transposeF mbd selectRows X = .error e) ∧
    (∀ x e, asCtx X = .ok x → netF x = .error e →
      predictE asCtx netF softmaxF transposeF mbd selectRows X = .error e) ∧
    (∀ x r e, asCtx X = .ok x → netF x = .ok r → softmaxF r.2.1 = .error e →
      predictE asCtx netF softmaxF transposeF mbd selectRows X = .error e) ∧
    (∀ x r sm e, asCtx X = .ok x → netF x = .ok r → softmaxF r.2.1 = .ok sm →
      transposeF sm = .error e →
      predictE asCtx netF softmaxF transposeF mbd selectRows X = .error e) ∧
    (∀ x r sm cp e, asCtx X = .ok x → netF x = .ok r →
      softmaxF r.2.1 = .ok sm → transposeF sm = .ok cp →
      mbd cp r.2.2 r.1 = .error e →
      predictE asCtx netF softmaxF transposeF mbd selectRows X = .error e) ∧
    (∀ e, netG p b = .error e →
      train_ch3_bodyE netG lossG backG stepG p b = .error e) ∧
    (∀ y e, netG p b = .ok y → lossG y b = .error e →
      train_ch3_bodyE netG lossG backG stepG p b = .error e) ∧
    (∀ y l e, netG p b = .ok y → lossG y b = .ok l → backG l = .error e →
      train_ch3_bodyE netG lossG backG stepG p b = .error e) := by
  refine ⟨?_, ?_, ?_, ?_, ?_, ?_, ?_, ?_⟩
  · intro e h1
    simp [predictE, h1, error_bind, ok_bind]
  · intro x e h1 h2
    simp [predictE, h1, h2, error_bind, ok_bind]
  · intro x r e h1 h2 h3
    simp [predictE, h1, h2, h3, error_bind, ok_bind]
  · intro x r sm e h1 h2 h3 h4
    simp [predictE, h1, h2, h3, h4, error_bind, ok_bind]
  · intro x r sm cp e h1 h2 h3 h4 h5
    simp [predictE, h1, h2, h3, h4, h5, error_bind, ok_bind]
  · intro e h1
    simp [train_ch3_bodyE, h1, error_bind, ok_bind]
  · intro y e h1 h2
    simp [train_ch3_bodyE, h1, h2, error_bind, ok_bind]
  · intro y l e h1 h2 h3
    simp [train_ch3_bodyE, h1, h2, h3, error_bind, ok_bind]

theorem C7_error_propagation_witness :
    predictE (fun _ => Except.error 7) (fun _ => Except.ok (0, 0, 0))
      Except.ok Except.ok (fun _ _ _ => Except.ok 0) Except.ok 0
      = Except.error 7 ∧
    train_ch3_bodyE (fun (_ : ℕ) (_ : ℕ) => (Except.error 3 : Except ℕ ℕ))
      (fun _ _ => Except.ok (0 : ℕ)) (fun _ => Except.ok (0 : ℕ))
      (fun p _ => Except.ok p) 0 0 = Except.error 3 := by
  have h := C7_error_propagation (T := ℕ) (E := ℕ) (P := ℕ) (B := ℕ) (Y := ℕ) (L := ℕ)
    (G := ℕ) (fun _ => Except.error 7) (fun _ => Except.ok (0, 0, 0))
    Except.ok Except.ok (fun _ _ _ => Except.ok 0) Except.ok 0
    (fun _ _ => Except.error 3) (fun _ _ => Except.ok 0)
    (fun _ => Except.ok 0) (fun p _ => Except.ok p) 0 0
  exact ⟨h.1 7 rfl, h.2.2.2.2.2.1 3 rfl⟩

end ErrProp
